import Mathlib

/-! gowiki: a verification development of `wiki.go`

The wiki serves three routes (`/view/`, `/edit/`, `/save/`).  Every handler
first extracts the page title from the request path with the regular
expression `validPath`, then talks to the page collection of a document
database and answers through the `http.ResponseWriter`.

The development has three layers.

* `regexp`: the fragment of Go's `regexp` package that `validPath` uses
  (anchors, literals, a character class, alternation, `+`, capture groups)
  with leftmost-first backtracking semantics and `FindStringSubmatch`.
* the page collection and the three driver calls the program makes
  (`DeleteMany`, `InsertOne`, `FindOne`), each of which can fail, and the
  calls made on the response writer.
* the functions of `wiki.go`, in the order of the source.
-/

set_option autoImplicit false

namespace regexp

/-- Syntax of the regular expressions used by the program. -/
inductive Regex where
  /-- the empty expression, matches the empty string -/
  | empty
  /-- `^` without the multi-line flag: the beginning of the text -/
  | beginText
  /-- `$` without the multi-line flag: the end of the text -/
  | endText
  /-- a literal character -/
  | lit (c : Char)
  /-- a character class given by inclusive ranges, such as `[a-zA-Z0-9]` -/
  | cls (ranges : List (Char × Char))
  /-- concatenation -/
  | cat (a b : Regex)
  /-- alternation `a|b`, preferring `a` -/
  | alt (a b : Regex)
  /-- greedy repetition `a+` -/
  | plus (a : Regex)
  /-- the numbered capture group `(a)` -/
  | capture (idx : Nat) (a : Regex)

/-- A literal string as a concatenation of literal characters. -/
def Regex.str : List Char → Regex
  | [] => Regex.empty
  | c :: cs => Regex.cat (Regex.lit c) (Regex.str cs)

/-- A matching thread: how many characters of the text lie before the current
position, the remaining text, and the capture groups closed so far (most
recent first). -/
structure Thread where
  pos : Nat
  rest : List Char
  caps : List (Nat × String)

/-- Membership of a character in a class given by inclusive ranges. -/
def inClass (ranges : List (Char × Char)) (c : Char) : Bool :=
  ranges.any (fun r => decide (r.1 ≤ c) && decide (c ≤ r.2))

/-- Greedy iteration of `step`, at least once.  After an iteration that
consumed text another iteration is preferred; when that fails the thread goes
on with the continuation.  The counter bounds the number of iterations by the
length of the remaining text plus one. -/
def plusLoop (step : Thread → (Thread → Option Thread) → Option Thread) :
    Nat → Thread → (Thread → Option Thread) → Option Thread
  | 0, _, _ => none
  | n + 1, s, k =>
    step s (fun s' =>
      match (if s'.rest.length < s.rest.length then plusLoop step n s' k else none) with
      | some r => some r
      | none => k s')

/-- Backtracking matcher in continuation-passing style: `run re s k` matches
`re` at thread `s` and hands every way of matching to `k`, in priority order,
until `k` accepts. -/
def run : Regex → Thread → (Thread → Option Thread) → Option Thread
  | .empty, s, k => k s
  | .beginText, s, k => if s.pos = 0 then k s else none
  | .endText, s, k =>
    match s.rest with
    | [] => k s
    | _ :: _ => none
  | .lit c, s, k =>
    match s.rest with
    | [] => none
    | x :: xs => if x = c then k { s with pos := s.pos + 1, rest := xs } else none
  | .cls ranges, s, k =>
    match s.rest with
    | [] => none
    | x :: xs => if inClass ranges x then k { s with pos := s.pos + 1, rest := xs } else none
  | .cat a b, s, k => run a s (fun s' => run b s' k)
  | .alt a b, s, k =>
    match run a s k with
    | some r => some r
    | none => run b s k
  | .plus a, s, k => plusLoop (run a) (s.rest.length + 1) s k
  | .capture idx a, s, k =>
    run a s (fun s' =>
      k { s' with caps := (idx, String.mk (s.rest.take (s'.pos - s.pos))) :: s'.caps })

/-- Leftmost search: the match is tried at every start position in turn, the
first position with a match wins.  Returns the start thread and end thread. -/
def searchFrom (re : Regex) : Nat → List Char → Option (Thread × Thread)
  | pos, [] =>
    match run re ⟨pos, [], []⟩ some with
    | some r => some (⟨pos, [], []⟩, r)
    | none => none
  | pos, x :: xs =>
    match run re ⟨pos, x :: xs, []⟩ some with
    | some r => some (⟨pos, x :: xs, []⟩, r)
    | none => searchFrom re (pos + 1) xs

/-- The text of capture group `idx`: the most recent closing of the group, the
empty string when the group did not take part in the match. -/
def submatch (caps : List (Nat × String)) (idx : Nat) : String :=
  match caps.lookup idx with
  | some t => t
  | none => ""

/-- Go's `(*Regexp).FindStringSubmatch` for an expression with capture groups
`1 .. numSubexp`: `none` is Go's `nil`, otherwise the list holds the text of
the leftmost match followed by the text of each group. -/
def FindStringSubmatch (re : Regex) (numSubexp : Nat) (text : String) : Option (List String) :=
  match searchFrom re 0 text.data with
  | none => none
  | some (s, r) =>
    some (String.mk (s.rest.take (r.pos - s.pos)) ::
      (List.range numSubexp).map (fun i => submatch r.caps (i + 1)))

end regexp

open regexp in
/-- The expression `^/(edit|save|view)/([a-zA-Z0-9]+)$`. -/
def validPath : Regex :=
  .cat .beginText
    (.cat (.lit '/')
      (.cat (.capture 1 (.alt (Regex.str "edit".data) (.alt (Regex.str "save".data) (Regex.str "view".data))))
        (.cat (.lit '/')
          (.cat (.capture 2 (.plus (.cls [('a', 'z'), ('A', 'Z'), ('0', '9')])))
            .endText))))


/-! ## The response writer, the request and the page collection -/

/-- A Go `error`, represented by its `Error()` text. -/
abbrev GoError := String

/-- The page entity of `wiki.go`. -/
structure Page where
  Title : String
  Content : List UInt8
  deriving DecidableEq

/-- A stored document of the `pages` collection, `{title, content}`. -/
structure Doc where
  title : String
  content : List UInt8
  deriving DecidableEq

/-- The calls the program makes on an `http.ResponseWriter`. -/
inductive HttpCall where
  /-- `http.Error(w, msg, code)` -/
  | Error (msg : String) (code : Nat)
  /-- `http.Redirect(w, r, url, code)` -/
  | Redirect (url : String) (code : Nat)
  /-- `templates.ExecuteTemplate(w, name, p)` -/
  | ExecuteTemplate (name : String) (p : Page)
  deriving DecidableEq

/-- An `http.ResponseWriter` is represented by the calls made on it, oldest
first. -/
abbrev ResponseWriter := List HttpCall

/-- The part of an `*http.Request` the handlers read: `r.URL.Path` and the
submitted form values. -/
structure Request where
  Path : String
  Form : List (String × String)

/-- Go's `r.FormValue(key)`: the first value for the key, the empty string
when the key is absent. -/
def Request.FormValue (r : Request) (key : String) : String :=
  match r.Form.lookup key with
  | some v => v
  | none => ""

namespace http

def StatusFound : Nat := 302
def StatusNotFound : Nat := 404
def StatusInternalServerError : Nat := 500

/-- `http.Error` replies with the given status code and the message as body. -/
def Error (w : ResponseWriter) (msg : String) (code : Nat) : ResponseWriter :=
  w ++ [HttpCall.Error msg code]

/-- `http.NotFound` is `http.Error(w, "404 page not found", StatusNotFound)`. -/
def NotFound (w : ResponseWriter) (_r : Request) : ResponseWriter :=
  Error w "404 page not found" StatusNotFound

/-- `http.Redirect` replies with the given status code and `Location: url`. -/
def Redirect (w : ResponseWriter) (_r : Request) (url : String) (code : Nat) : ResponseWriter :=
  w ++ [HttpCall.Redirect url code]

/-- The body `http.Error` writes: the message followed by a newline
(`fmt.Fprintln`). -/
def errorBody (msg : String) : String := msg ++ "\n"

end http

/-- The driver calls issued against the page collection. -/
inductive DbCall where
  /-- `DeleteMany(ctx, bson.M{"title": title})` -/
  | DeleteMany (title : String)
  /-- `InsertOne(ctx, bson.M{"title": title, "content": content})` -/
  | InsertOne (title : String) (content : List UInt8)
  /-- `FindOne(ctx, bson.M{"title": title})` -/
  | FindOne (title : String)
  deriving DecidableEq

/-- The `pages` collection behind `*mongo.Collection`: its documents in
natural (insertion) order, and the driver calls issued so far, oldest first. -/
structure Collection where
  docs : List Doc
  calls : List DbCall
  deriving DecidableEq

/-- The outcomes of one request that the program does not decide: whether the
server carries out the delete and the insert (`none`) or refuses with an error,
whether the find with its decoding is answered (`none`) or fails with an error
(a driver failure, or a stored document that cannot be decoded), and whether
executing the template fails. -/
structure Env where
  deleteErr : Option GoError
  insertErr : Option GoError
  findErr : Option GoError
  templateErr : Option GoError

namespace Collection

/-- Modelled from the spec: the driver's delete-many-by-filter (the driver is
an external dependency, not part of the sources).  A delete that is carried out
removes every document whose `title` equals the filter value; a refused delete
returns its error and changes no document. -/
def DeleteMany (c : Collection) (fault : Option GoError) (title : String) :
    Collection × Option GoError :=
  match fault with
  | some e => ({ c with calls := c.calls ++ [DbCall.DeleteMany title] }, some e)
  | none =>
    ({ docs := c.docs.filter (fun d => !(d.title == title)),
       calls := c.calls ++ [DbCall.DeleteMany title] }, none)

/-- Modelled from the spec: the driver's insert-one.  An insert that is carried
out appends the document; a refused insert returns its error and changes no
document. -/
def InsertOne (c : Collection) (fault : Option GoError) (d : Doc) :
    Collection × Option GoError :=
  match fault with
  | some e => ({ c with calls := c.calls ++ [DbCall.InsertOne d.title d.content] }, some e)
  | none =>
    ({ docs := c.docs ++ [d],
       calls := c.calls ++ [DbCall.InsertOne d.title d.content] }, none)

/-- The error of `FindOne(...).Decode` when no document matches
(`mongo.ErrNoDocuments`). -/
def ErrNoDocuments : GoError := "mongo: no documents in result"

/-- Modelled from the spec: the driver's find-one-and-decode.  A find that
fails (a driver error, or a decoding failure) returns its error.  A find that
is answered yields the first document whose `title` equals the filter value,
decoded into a `Page`, and `ErrNoDocuments` when no document matches.  No
document is changed either way. -/
def FindOne (c : Collection) (fault : Option GoError) (title : String) :
    Collection × Except GoError Page :=
  ({ c with calls := c.calls ++ [DbCall.FindOne title] },
    match fault with
    | some e => Except.error e
    | none =>
      match c.docs.find? (fun d => d.title == title) with
      | some d => Except.ok { Title := d.title, Content := d.content }
      | none => Except.error ErrNoDocuments)

end Collection

/-- The program state `svc`: the service holding the page collection. -/
structure Service where
  Pages : Collection
  deriving DecidableEq

/-- Modelled from the spec: executing the precompiled template `name` (the
template files `edit.html` and `view.html` are not part of the sources) against
a page writes its output to the response and can fail. -/
def ExecuteTemplate (fault : Option GoError) (w : ResponseWriter) (name : String) (p : Page) :
    ResponseWriter × Option GoError :=
  (w ++ [HttpCall.ExecuteTemplate name p], fault)

/-- Go's conversion `[]byte(s)`: the UTF-8 bytes of the string. -/
def bytes (s : String) : List UInt8 := s.toUTF8.data.toList

/-! ## The functions of `wiki.go` -/

/-- `getTitle`: the title is the second subexpression of `validPath`; a path
that does not match is answered with `http.NotFound` and an error. -/
def getTitle (w : ResponseWriter) (r : Request) : ResponseWriter × String × Option GoError :=
  match regexp.FindStringSubmatch validPath 2 r.Path with
  | none => (http.NotFound w r, "", some "invalid Page Title")
  | some m => (w, m.getD 2 "", none)

/-- `(p *Page).save`: delete every document with the page's title, then insert
the page; the error of the delete is overwritten by the error of the insert. -/
def Page.save (env : Env) (svc : Service) (p : Page) : Service × Option GoError :=
  let (pages1, _err) := svc.Pages.DeleteMany env.deleteErr p.Title
  let (pages2, err) := pages1.InsertOne env.insertErr { title := p.Title, content := p.Content }
  ({ Pages := pages2 }, err)

/-- `loadPage`: find one document by title and decode it. -/
def loadPage (env : Env) (svc : Service) (title : String) : Service × Except GoError Page :=
  let (pages1, res) := svc.Pages.FindOne env.findErr title
  match res with
  | Except.error err => ({ Pages := pages1 }, Except.error err)
  | Except.ok page => ({ Pages := pages1 }, Except.ok page)

/-- `renderTemplate`: execute the template `tmpl + ".html"`; a failure is
answered with `http.Error` and status 500. -/
def renderTemplate (env : Env) (w : ResponseWriter) (tmpl : String) (p : Page) : ResponseWriter :=
  let (w1, err) := ExecuteTemplate env.templateErr w (tmpl ++ ".html") p
  match err with
  | some e => http.Error w1 e http.StatusInternalServerError
  | none => w1

/-- `viewHandler`. -/
def viewHandler (env : Env) (svc : Service) (w : ResponseWriter) (r : Request) :
    Service × ResponseWriter :=
  match getTitle w r with
  | (w1, _, some _) => (svc, w1)
  | (w1, title, none) =>
    match loadPage env svc title with
    | (svc1, Except.error _) =>
      (svc1, http.Redirect w1 r ("/edit/" ++ title) http.StatusFound)
    | (svc1, Except.ok p) => (svc1, renderTemplate env w1 "view" p)

/-- `editHandler`. -/
def editHandler (env : Env) (svc : Service) (w : ResponseWriter) (r : Request) :
    Service × ResponseWriter :=
  match getTitle w r with
  | (w1, _, some _) => (svc, w1)
  | (w1, title, none) =>
    match loadPage env svc title with
    | (svc1, Except.error _) =>
      (svc1, renderTemplate env w1 "edit" { Title := title, Content := [] })
    | (svc1, Except.ok p) => (svc1, renderTemplate env w1 "edit" p)

/-- `saveHandler`. -/
def saveHandler (env : Env) (svc : Service) (w : ResponseWriter) (r : Request) :
    Service × ResponseWriter :=
  match getTitle w r with
  | (w1, _, some _) => (svc, w1)
  | (w1, title, none) =>
    let body := r.FormValue "body"
    let p : Page := { Title := title, Content := bytes body }
    match p.save env svc with
    | (svc1, some err) => (svc1, http.Error w1 err http.StatusInternalServerError)
    | (svc1, none) => (svc1, http.Redirect w1 r ("/view/" ++ title) http.StatusFound)


/-! ## Specification vocabulary -/

/-- The characters of the class `[a-zA-Z0-9]`. -/
def IsAlnum (c : Char) : Prop :=
  ('a' ≤ c ∧ c ≤ 'z') ∨ ('A' ≤ c ∧ c ≤ 'Z') ∨ ('0' ≤ c ∧ c ≤ '9')

instance (c : Char) : Decidable (IsAlnum c) := by
  unfold IsAlnum
  infer_instance

/-- A title in the format `^[a-zA-Z0-9]+$`: non-empty, alphanumeric only. -/
def ValidTitle (t : String) : Prop :=
  t ≠ "" ∧ ∀ c ∈ t.data, IsAlnum c

instance (t : String) : Decidable (ValidTitle t) := by
  unfold ValidTitle
  infer_instance

/-- The path `s` is `"/" ++ p ++ "/" ++ t` for one of the three route names `p`
and a valid title `t`. -/
def WellFormedPath (s t : String) : Prop :=
  ∃ p : String, p ∈ ["edit", "save", "view"] ∧ ValidTitle t ∧ s = "/" ++ p ++ "/" ++ t

namespace regexp

/-- The ranges of the class `[a-zA-Z0-9]`. -/
def alnumRanges : List (Char × Char) := [('a', 'z'), ('A', 'Z'), ('0', '9')]

/-- The result of matching a route name `p` and the rest of `validPath` against
the text `r1` that follows the leading slash. -/
def routeResult (p r1 : List Char) : Option Thread :=
  if p.isPrefixOf r1 = true then
    match r1.drop p.length with
    | [] => none
    | x :: t =>
      if x = '/' ∧ t ≠ [] ∧ t.all (inClass alnumRanges) = true then
        some ⟨1 + p.length + 1 + t.length, [], [(2, String.mk t), (1, String.mk (r1.take p.length))]⟩
      else none
  else none

end regexp

/-! ## Lemmas about the matcher -/

namespace regexp

theorem inClass_alnum (c : Char) : inClass alnumRanges c = true ↔ IsAlnum c := by
  simp [inClass, alnumRanges, IsAlnum]

/-- A greedy repetition of a one-character step in front of a continuation that
only accepts at the end of the text consumes the whole remaining text. -/
theorem plusLoop_step (ranges : List (Char × Char))
    (step : Thread → (Thread → Option Thread) → Option Thread)
    (hstep : ∀ (s : Thread) (k : Thread → Option Thread), step s k =
      match s.rest with
      | [] => none
      | x :: xs => if inClass ranges x = true then k ⟨s.pos + 1, xs, s.caps⟩ else none)
    (k : Thread → Option Thread)
    (hk : ∀ s : Thread, s.rest ≠ [] → k s = none) :
    ∀ (n : Nat) (s : Thread), s.rest.length < n →
      plusLoop step n s k =
        if s.rest ≠ [] ∧ s.rest.all (inClass ranges) = true then
          k ⟨s.pos + s.rest.length, [], s.caps⟩
        else none := by
  intro n
  induction n with
  | zero => intro s h; omega
  | succ n ih =>
    intro s h
    obtain ⟨pos, rest, caps⟩ := s
    cases rest with
    | nil => simp [plusLoop, hstep]
    | cons x xs =>
      simp only [List.length_cons] at h
      by_cases hx : inClass ranges x = true
      · have hlen : xs.length < n := by omega
        have ih' := ih ⟨pos + 1, xs, caps⟩ hlen
        simp only [plusLoop, hstep, hx, if_true, List.length_cons, Nat.lt_succ_self, ih']
        cases xs with
        | nil => simp [hx]
        | cons y ys =>
          have hk' := hk ⟨pos + 1, y :: ys, caps⟩ (by simp)
          have h1 : pos + 1 + (ys.length + 1) = pos + (ys.length + 1 + 1) := by omega
          by_cases hall : (y :: ys).all (inClass ranges) = true
          · simp only [hall, hx, ne_eq, not_false_eq_true, and_self, if_true, h1, List.all_cons,
              Bool.and_self, reduceCtorEq, List.length_cons]
            cases k ⟨pos + (ys.length + 1 + 1), [], caps⟩ <;> simp [hk']
          · simp only [hall, hk', hx, List.all_cons, Bool.true_and, and_false, if_false,
              reduceCtorEq, ne_eq, not_false_eq_true, and_true, Bool.false_eq_true]
      · simp [plusLoop, hstep, hx]

theorem plusLoop_cls (ranges : List (Char × Char)) (k : Thread → Option Thread)
    (hk : ∀ s : Thread, s.rest ≠ [] → k s = none) (n : Nat) (s : Thread)
    (h : s.rest.length < n) :
    plusLoop (run (.cls ranges)) n s k =
      if s.rest ≠ [] ∧ s.rest.all (inClass ranges) = true then
        k ⟨s.pos + s.rest.length, [], s.caps⟩
      else none :=
  plusLoop_step ranges (run (.cls ranges)) (fun s k => by simp only [run]) k hk n s h

theorem run_cat (a b : Regex) (s : Thread) (k : Thread → Option Thread) :
    run (.cat a b) s k = run a s (fun s' => run b s' k) := by
  simp only [run]

theorem run_plus (a : Regex) (s : Thread) (k : Thread → Option Thread) :
    run (.plus a) s k = plusLoop (run a) (s.rest.length + 1) s k := by
  simp only [run]

theorem run_capture (idx : Nat) (a : Regex) (s : Thread) (k : Thread → Option Thread) :
    run (.capture idx a) s k =
      run a s (fun s' =>
        k { s' with caps := (idx, String.mk (s.rest.take (s'.pos - s.pos))) :: s'.caps }) := by
  simp only [run]

theorem run_lit (c : Char) (s : Thread) (k : Thread → Option Thread) :
    run (.lit c) s k =
      match s.rest with
      | [] => none
      | x :: xs => if x = c then k { s with pos := s.pos + 1, rest := xs } else none := by
  simp only [run]

/-- The group `([a-zA-Z0-9]+)` followed by `$`. -/
theorem run_title (s : Thread) :
    run (.cat (.capture 2 (.plus (.cls alnumRanges))) .endText) s some =
      if s.rest ≠ [] ∧ s.rest.all (inClass alnumRanges) = true then
        some ⟨s.pos + s.rest.length, [], (2, String.mk s.rest) :: s.caps⟩
      else none := by
  rw [run_cat, run_capture, run_plus, plusLoop_cls]
  · simp [run]
  · intro s' hs'
    obtain ⟨pos, rest, caps⟩ := s'
    cases rest with
    | nil => exact absurd rfl hs'
    | cons x xs => simp [run]
  · omega

/-- A literal string matches exactly when it is a prefix of the remaining text. -/
theorem run_str (cs : List Char) (s : Thread) (k : Thread → Option Thread) :
    run (Regex.str cs) s k =
      if cs.isPrefixOf s.rest = true then
        k ⟨s.pos + cs.length, s.rest.drop cs.length, s.caps⟩
      else none := by
  induction cs generalizing s with
  | nil => simp [Regex.str, run]
  | cons c cs ih =>
    obtain ⟨pos, rest, caps⟩ := s
    cases rest with
    | nil => simp [Regex.str, run]
    | cons x xs =>
      by_cases hx : x = c
      · subst hx
        simp [Regex.str, run, ih, Nat.add_assoc, Nat.add_comm 1]
      · have hx' : ¬ c = x := fun h => hx h.symm
        simp [Regex.str, run, hx, hx']

/-- The part of `validPath` after the route name: `/([a-zA-Z0-9]+)$`. -/
theorem run_slash_title (s : Thread) :
    run (.cat (.lit '/') (.cat (.capture 2 (.plus (.cls alnumRanges))) .endText)) s some =
      match s.rest with
      | [] => none
      | x :: t =>
        if x = '/' ∧ t ≠ [] ∧ t.all (inClass alnumRanges) = true then
          some ⟨s.pos + 1 + t.length, [], (2, String.mk t) :: s.caps⟩
        else none := by
  obtain ⟨pos, rest, caps⟩ := s
  cases rest with
  | nil => simp [run]
  | cons x t =>
    rw [run_cat]
    by_cases hx : x = '/'
    · simp only [run_lit, hx, if_true, run_title, true_and]
    · simp [run, hx]

theorem run_alt (a b : Regex) (s : Thread) (k : Thread → Option Thread) :
    run (.alt a b) s k =
      match run a s k with
      | some r => some r
      | none => run b s k := by
  simp only [run]

theorem run_beginText (s : Thread) (k : Thread → Option Thread) :
    run .beginText s k = if s.pos = 0 then k s else none := by
  simp only [run]

theorem run_route (p r1 : List Char) :
    run (Regex.str p) ⟨1, r1, []⟩ (fun s' =>
      (fun s'' => run (.cat (.lit '/') (.cat (.capture 2 (.plus (.cls alnumRanges))) .endText)) s'' some)
        { s' with caps := (1, String.mk (r1.take (s'.pos - 1))) :: s'.caps }) =
    routeResult p r1 := by
  rw [run_str]
  simp only [run_slash_title, routeResult]
  split
  · simp
  · rfl

theorem validPath_eq : validPath =
    .cat .beginText (.cat (.lit '/')
      (.cat (.capture 1 (.alt (Regex.str ['e', 'd', 'i', 't'])
          (.alt (Regex.str ['s', 'a', 'v', 'e']) (Regex.str ['v', 'i', 'e', 'w']))))
        (.cat (.lit '/') (.cat (.capture 2 (.plus (.cls alnumRanges))) .endText)))) := rfl

/-- The matcher for `validPath` at the beginning of the text, computed. -/
theorem run_validPath (text : List Char) :
    run validPath ⟨0, text, []⟩ some =
      match text with
      | [] => none
      | x :: r1 =>
        if x = '/' then
          match routeResult ['e', 'd', 'i', 't'] r1 with
          | some r => some r
          | none =>
            match routeResult ['s', 'a', 'v', 'e'] r1 with
            | some r => some r
            | none => routeResult ['v', 'i', 'e', 'w'] r1
        else none := by
  rw [validPath_eq, run_cat, run_beginText]
  simp only [if_true]
  rw [run_cat, run_lit]
  cases text with
  | nil => rfl
  | cons x r1 =>
    simp only
    split
    · rw [run_cat, run_capture, run_alt, run_alt]
      simp only [Nat.zero_add, run_route]
    · rfl

theorem all_inClass_alnum (t : List Char) :
    t.all (inClass alnumRanges) = true ↔ ∀ c ∈ t, IsAlnum c := by
  simp [List.all_eq_true, inClass_alnum]

theorem routeResult_eq_some (p r1 : List Char) (r : Thread) :
    routeResult p r1 = some r ↔
      ∃ t : List Char, t ≠ [] ∧ (∀ c ∈ t, IsAlnum c) ∧ r1 = p ++ '/' :: t ∧
        r = ⟨1 + p.length + 1 + t.length, [], [(2, String.mk t), (1, String.mk p)]⟩ := by
  unfold routeResult
  constructor
  · intro h
    split at h
    · rename_i hp
      obtain ⟨u, hu⟩ := List.isPrefixOf_iff_prefix.mp hp
      subst hu
      simp only [List.drop_left, List.take_left] at h
      cases u with
      | nil => simp at h
      | cons x t =>
        simp only at h
        split at h
        · rename_i hc
          obtain ⟨hx, ht, hall⟩ := hc
          subst hx
          refine ⟨t, ht, (all_inClass_alnum t).mp hall, rfl, ?_⟩
          simpa using h.symm
        · simp at h
    · simp at h
  · rintro ⟨t, ht, hall, rfl, rfl⟩
    have hp : p.isPrefixOf (p ++ '/' :: t) = true :=
      List.isPrefixOf_iff_prefix.mpr (List.prefix_append _ _)
    simp only [hp, if_true, List.drop_left, List.take_left]
    simp [ht, (all_inClass_alnum t).mpr hall]

theorem routeResult_eq_none_of_head (p r1 : List Char) (c d : Char) (p' r1' : List Char)
    (hp : p = c :: p') (hr : r1 = d :: r1') (hcd : c ≠ d) : routeResult p r1 = none := by
  subst hp hr
  simp [routeResult, List.isPrefixOf, hcd]

/-- The matcher for `validPath` at the beginning of the text accepts exactly
the texts `/p/t` with a route name `p` and a non-empty alphanumeric `t`, and
captures `p` and `t`. -/
theorem run_validPath_iff (text : List Char) (r : Thread) :
    run validPath ⟨0, text, []⟩ some = some r ↔
      ∃ p t : List Char,
        (p = ['e', 'd', 'i', 't'] ∨ p = ['s', 'a', 'v', 'e'] ∨ p = ['v', 'i', 'e', 'w']) ∧
        t ≠ [] ∧ (∀ c ∈ t, IsAlnum c) ∧ text = '/' :: (p ++ '/' :: t) ∧
        r = ⟨text.length, [], [(2, String.mk t), (1, String.mk p)]⟩ := by
  rw [run_validPath]
  constructor
  · intro h
    cases text with
    | nil => simp at h
    | cons x r1 =>
      simp only at h
      split at h
      · rename_i hx
        subst hx
        have key : ∀ p : List Char, p.length = 4 → routeResult p r1 = some r →
            ∃ t : List Char, t ≠ [] ∧ (∀ c ∈ t, IsAlnum c) ∧ '/' :: r1 = '/' :: (p ++ '/' :: t) ∧
              r = ⟨('/' :: r1).length, [], [(2, String.mk t), (1, String.mk p)]⟩ := by
          intro p hp hr
          obtain ⟨t, ht, hall, h1, h2⟩ := (routeResult_eq_some p r1 r).mp hr
          refine ⟨t, ht, hall, by rw [h1], ?_⟩
          rw [h2, h1]
          simp only [List.length_cons, List.length_append, hp]
          congr 1
          omega
        split at h
        · rename_i r' h1
          cases h
          obtain ⟨t, ht⟩ := key ['e', 'd', 'i', 't'] rfl h1
          exact ⟨_, t, Or.inl rfl, ht⟩
        · split at h
          · rename_i r' h1
            cases h
            obtain ⟨t, ht⟩ := key ['s', 'a', 'v', 'e'] rfl h1
            exact ⟨_, t, Or.inr (Or.inl rfl), ht⟩
          · obtain ⟨t, ht⟩ := key ['v', 'i', 'e', 'w'] rfl h
            exact ⟨_, t, Or.inr (Or.inr rfl), ht⟩
      · simp at h
  · rintro ⟨p, t, hp, ht, hall, rfl, rfl⟩
    have key : ∀ q : List Char, q.length = 4 → routeResult q (q ++ '/' :: t) =
        some ⟨('/' :: (q ++ '/' :: t)).length, [], [(2, String.mk t), (1, String.mk q)]⟩ := by
      intro q hq
      rw [routeResult_eq_some]
      refine ⟨t, ht, hall, rfl, ?_⟩
      simp only [List.length_cons, List.length_append, hq]
      congr 1
      omega
    simp only [if_true]
    rcases hp with rfl | rfl | rfl
    · rw [key ['e', 'd', 'i', 't'] rfl]
    · have e1 : routeResult ['e', 'd', 'i', 't'] (['s', 'a', 'v', 'e'] ++ '/' :: t) = none :=
        routeResult_eq_none_of_head _ _ 'e' 's' _ _ rfl rfl (by decide)
      rw [e1, key ['s', 'a', 'v', 'e'] rfl]
    · have e1 : routeResult ['e', 'd', 'i', 't'] (['v', 'i', 'e', 'w'] ++ '/' :: t) = none :=
        routeResult_eq_none_of_head _ _ 'e' 'v' _ _ rfl rfl (by decide)
      have e2 : routeResult ['s', 'a', 'v', 'e'] (['v', 'i', 'e', 'w'] ++ '/' :: t) = none :=
        routeResult_eq_none_of_head _ _ 's' 'v' _ _ rfl rfl (by decide)
      rw [e1, e2, key ['v', 'i', 'e', 'w'] rfl]

theorem run_validPath_succ (pos : Nat) (text : List Char) (k : Thread → Option Thread) :
    run validPath ⟨pos + 1, text, []⟩ k = none := by
  rw [validPath_eq, run_cat, run_beginText]
  simp

/-- Because of the leading `^` no later start position matches. -/
theorem searchFrom_validPath_succ (text : List Char) :
    ∀ pos : Nat, searchFrom validPath (pos + 1) text = none := by
  induction text with
  | nil => intro pos; simp [searchFrom, run_validPath_succ]
  | cons x xs ih => intro pos; simp [searchFrom, run_validPath_succ, ih]

theorem searchFrom_validPath_zero (text : List Char) :
    searchFrom validPath 0 text =
      match run validPath ⟨0, text, []⟩ some with
      | some r => some (⟨0, text, []⟩, r)
      | none => none := by
  cases text with
  | nil => simp [searchFrom]
  | cons x xs =>
    simp only [searchFrom, Nat.zero_add, searchFrom_validPath_succ]

theorem string_eq_route (s p t : String) :
    s = "/" ++ p ++ "/" ++ t ↔ s.data = '/' :: (p.data ++ '/' :: t.data) := by
  rw [String.ext_iff]
  simp [String.data_append]

theorem mk_take_length (s : String) : String.mk (List.take s.length s.data) = s := by
  cases s
  simp [String.length]

/-- The submatches of `validPath`: a path matches exactly when it is
`"/" ++ p ++ "/" ++ t` for a route name `p` and a valid title `t`, and then the
result is the path, the route name and the title. -/
theorem FindStringSubmatch_validPath (s : String) (m : List String) :
    FindStringSubmatch validPath 2 s = some m ↔
      ∃ p t : String, p ∈ ["edit", "save", "view"] ∧ ValidTitle t ∧
        s = "/" ++ p ++ "/" ++ t ∧ m = [s, p, t] := by
  unfold FindStringSubmatch
  rw [searchFrom_validPath_zero]
  constructor
  · intro h
    cases hr : run validPath ⟨0, s.data, []⟩ some with
    | none => simp [hr] at h
    | some r =>
      obtain ⟨p, t, hp, ht, hall, htext, hr'⟩ := (run_validPath_iff _ _).mp hr
      rw [hr] at h
      subst hr'
      simp [List.range_succ, submatch, List.lookup, mk_take_length] at h
      refine ⟨String.mk p, String.mk t, ?_, ⟨?_, hall⟩, ?_, h.symm⟩
      · rcases hp with rfl | rfl | rfl <;> decide
      · intro h0
        apply ht
        have := congrArg String.data h0
        simpa using this
      · rw [string_eq_route]
        exact htext
  · rintro ⟨p, t, hp, ⟨ht, hall⟩, hs, rfl⟩
    have hp' : p.data = ['e', 'd', 'i', 't'] ∨ p.data = ['s', 'a', 'v', 'e'] ∨
        p.data = ['v', 'i', 'e', 'w'] := by
      simp only [List.mem_cons, List.mem_singleton, List.not_mem_nil, or_false] at hp
      rcases hp with rfl | rfl | rfl
      · exact Or.inl rfl
      · exact Or.inr (Or.inl rfl)
      · exact Or.inr (Or.inr rfl)
    have ht' : t.data ≠ [] := by
      intro h0
      apply ht
      rw [String.ext_iff, h0]
    have hr := (run_validPath_iff s.data
      ⟨s.data.length, [], [(2, String.mk t.data), (1, String.mk p.data)]⟩).mpr
      ⟨p.data, t.data, hp', ht', hall, (string_eq_route s p t).mp hs, rfl⟩
    rw [hr]
    simp [List.range_succ, submatch, List.lookup, mk_take_length]

theorem FindStringSubmatch_validPath_none (s : String) :
    FindStringSubmatch validPath 2 s = none ↔ ¬ ∃ t : String, WellFormedPath s t := by
  constructor
  · rintro h ⟨t, p, hp, ht, hs⟩
    have := (FindStringSubmatch_validPath s [s, p, t]).mpr ⟨p, t, hp, ht, hs, rfl⟩
    rw [h] at this
    cases this
  · intro h
    cases hm : FindStringSubmatch validPath 2 s with
    | none => rfl
    | some m =>
      obtain ⟨p, t, hp, ht, hs, _⟩ := (FindStringSubmatch_validPath s m).mp hm
      exact absurd ⟨t, p, hp, ht, hs⟩ h

end regexp

/-! ## Lemmas about `getTitle` and the repository functions -/

theorem getTitle_of_wellFormed (w : ResponseWriter) (r : Request) (t : String)
    (h : WellFormedPath r.Path t) : getTitle w r = (w, t, none) := by
  obtain ⟨p, hp, ht, hs⟩ := h
  have hm := (regexp.FindStringSubmatch_validPath r.Path [r.Path, p, t]).mpr
    ⟨p, t, hp, ht, hs, rfl⟩
  simp [getTitle, hm]

theorem getTitle_of_not_wellFormed (w : ResponseWriter) (r : Request)
    (h : ∀ t : String, ¬ WellFormedPath r.Path t) :
    getTitle w r = (w ++ [HttpCall.Error "404 page not found" 404], "", some "invalid Page Title") := by
  have hm := (regexp.FindStringSubmatch_validPath_none r.Path).mpr (fun ⟨t, ht⟩ => h t ht)
  simp [getTitle, hm, http.NotFound, http.Error, http.StatusNotFound]

theorem getTitle_eq_some_iff (w : ResponseWriter) (r : Request) (t : String) :
    (getTitle w r).2 = (t, none) ↔ WellFormedPath r.Path t := by
  constructor
  · intro h
    unfold getTitle at h
    cases hm : regexp.FindStringSubmatch validPath 2 r.Path with
    | none => simp [hm] at h
    | some m =>
      obtain ⟨p, t', hp, ht, hs, hmm⟩ := (regexp.FindStringSubmatch_validPath r.Path m).mp hm
      subst hmm
      simp [hm] at h
      subst h
      exact ⟨p, hp, ht, hs⟩
  · intro h
    rw [getTitle_of_wellFormed w r t h]

theorem not_wellFormed_of_noMatch (s : String)
    (h : regexp.FindStringSubmatch validPath 2 s = none) : ∀ t : String, ¬ WellFormedPath s t :=
  fun t ht => (regexp.FindStringSubmatch_validPath_none s).mp h ⟨t, ht⟩

theorem wellFormed_view (t : String) (ht : ValidTitle t) : WellFormedPath ("/view/" ++ t) t :=
  ⟨"view", by simp, ht, rfl⟩

theorem wellFormed_edit (t : String) (ht : ValidTitle t) : WellFormedPath ("/edit/" ++ t) t :=
  ⟨"edit", by simp, ht, rfl⟩

theorem wellFormed_save (t : String) (ht : ValidTitle t) : WellFormedPath ("/save/" ++ t) t :=
  ⟨"save", by simp, ht, rfl⟩

theorem save_err (env : Env) (svc : Service) (p : Page) : (p.save env svc).2 = env.insertErr := by
  unfold Page.save Collection.DeleteMany Collection.InsertOne
  cases env.deleteErr <;> cases env.insertErr <;> rfl

theorem save_calls (env : Env) (svc : Service) (p : Page) :
    (p.save env svc).1.Pages.calls =
      svc.Pages.calls ++ [DbCall.DeleteMany p.Title, DbCall.InsertOne p.Title p.Content] := by
  unfold Page.save Collection.DeleteMany Collection.InsertOne
  cases env.deleteErr <;> cases env.insertErr <;> simp

theorem save_docs (env : Env) (svc : Service) (p : Page) :
    (p.save env svc).1.Pages.docs =
      (match env.deleteErr with
        | some _ => svc.Pages.docs
        | none => svc.Pages.docs.filter (fun d => !(d.title == p.Title))) ++
      (match env.insertErr with
        | some _ => []
        | none => [{ title := p.Title, content := p.Content }]) := by
  unfold Page.save Collection.DeleteMany Collection.InsertOne
  cases env.deleteErr <;> cases env.insertErr <;> simp

theorem loadPage_result (env : Env) (svc : Service) (title : String) :
    (loadPage env svc title).2 =
      match env.findErr with
      | some e => Except.error e
      | none =>
        match svc.Pages.docs.find? (fun d => d.title == title) with
        | some d => Except.ok { Title := d.title, Content := d.content }
        | none => Except.error Collection.ErrNoDocuments := by
  unfold loadPage Collection.FindOne
  cases env.findErr with
  | some e => rfl
  | none => cases svc.Pages.docs.find? (fun d => d.title == title) <;> rfl

theorem loadPage_state (env : Env) (svc : Service) (title : String) :
    (loadPage env svc title).1 =
      { Pages := { docs := svc.Pages.docs, calls := svc.Pages.calls ++ [DbCall.FindOne title] } } := by
  unfold loadPage Collection.FindOne
  cases env.findErr with
  | some e => rfl
  | none => cases svc.Pages.docs.find? (fun d => d.title == title) <;> rfl

theorem loadPage_error_of_absent (env : Env) (svc : Service) (t : String)
    (h : svc.Pages.docs.find? (fun d => d.title == t) = none) :
    ∃ e, (loadPage env svc t).2 = Except.error e := by
  rw [loadPage_result, h]
  cases env.findErr with
  | some e => exact ⟨e, rfl⟩
  | none => exact ⟨Collection.ErrNoDocuments, rfl⟩

theorem find_absent (docs : List Doc) (t : String) (h : ∀ d ∈ docs, d.title ≠ t) :
    docs.find? (fun d => d.title == t) = none := by
  rw [List.find?_eq_none]
  intro d hd
  simpa using h d hd

theorem find_filter_other (docs : List Doc) (t u : String) (h : u ≠ t) :
    (docs.filter (fun d => !(d.title == t))).find? (fun d => d.title == u) =
      docs.find? (fun d => d.title == u) := by
  induction docs with
  | nil => rfl
  | cons d ds ih =>
    by_cases hd : d.title = t
    · have hu : ¬ d.title = u := fun e => h (e.symm.trans hd)
      have hb : (d.title == u) = false := by simpa using hu
      have hbt : (d.title == t) = true := by simpa using hd
      rw [List.filter_cons, List.find?_cons, hb, hbt]
      simpa using ih
    · have hb : (d.title == t) = false := by simpa using hd
      rw [List.filter_cons]
      simp only [hb, Bool.not_false, if_true]
      rw [List.find?_cons, List.find?_cons, ih]

/-! ## Title extraction -/

/-- C1: `getTitle` succeeds exactly on well-formed paths.  For every request
path, `getTitle` returns `(t, no error)` if and only if the path is
`"/" ++ p ++ "/" ++ t` for a route name `p` among `edit`, `save`, `view` and a
non-empty alphanumeric `t`; in that case nothing is written to the response, and
in every other case it returns the empty string with the error
`invalid Page Title` and answers `404 page not found`. -/
theorem getTitle_succeeds_exactly_on_wellFormed_paths (w : ResponseWriter) (r : Request) :
    (∀ t : String, (getTitle w r).2 = (t, none) ↔ WellFormedPath r.Path t) ∧
    (∀ t : String, WellFormedPath r.Path t ↔ getTitle w r = (w, t, none)) ∧
    ((∀ t : String, ¬ WellFormedPath r.Path t) ↔
      getTitle w r =
        (w ++ [HttpCall.Error "404 page not found" 404], "", some "invalid Page Title")) := by
  refine ⟨getTitle_eq_some_iff w r, fun t => ⟨getTitle_of_wellFormed w r t, fun h => ?_⟩,
    getTitle_of_not_wellFormed w r, fun h t ht => ?_⟩
  · exact (getTitle_eq_some_iff w r t).mp (by rw [h])
  · have h2 := getTitle_of_wellFormed w r t ht
    rw [h] at h2
    simp at h2

/-! ## Invalid titles -/

/-- C2: for every request whose path is not of the form `/(edit|save|view)/title`
with a non-empty alphanumeric title, each of `viewHandler`, `editHandler` and
`saveHandler` answers `404 page not found` and nothing else (no redirect, no
template), and leaves the service as it was: the documents are unchanged and no
find, delete or insert is issued. -/
theorem handlers_reject_invalid_path_without_database_access
    (env : Env) (svc : Service) (w : ResponseWriter) (r : Request)
    (h : ∀ t : String, ¬ WellFormedPath r.Path t) :
    viewHandler env svc w r = (svc, w ++ [HttpCall.Error "404 page not found" 404]) ∧
    editHandler env svc w r = (svc, w ++ [HttpCall.Error "404 page not found" 404]) ∧
    saveHandler env svc w r = (svc, w ++ [HttpCall.Error "404 page not found" 404]) := by
  have hg := getTitle_of_not_wellFormed w r h
  refine ⟨?_, ?_, ?_⟩
  · simp [viewHandler, hg]
  · simp [editHandler, hg]
  · simp [saveHandler, hg]

/-- Witness for C2: the paths `/view/foo bar` and `/save/foo/bar` on a store
holding one page. -/
theorem handlers_reject_invalid_path_witness :
    ((∀ t : String, ¬ WellFormedPath "/view/foo bar" t) ∧
      viewHandler ⟨none, none, none, none⟩ ⟨⟨[⟨"foo", []⟩], []⟩⟩ [] ⟨"/view/foo bar", []⟩ =
        (⟨⟨[⟨"foo", []⟩], []⟩⟩, [] ++ [HttpCall.Error "404 page not found" 404])) ∧
    ((∀ t : String, ¬ WellFormedPath "/save/foo/bar" t) ∧
      saveHandler ⟨none, none, none, none⟩ ⟨⟨[⟨"foo", []⟩], []⟩⟩ [] ⟨"/save/foo/bar", [("body", "x")]⟩ =
        (⟨⟨[⟨"foo", []⟩], []⟩⟩, [] ++ [HttpCall.Error "404 page not found" 404])) :=
  ⟨⟨not_wellFormed_of_noMatch _ (by decide),
    (handlers_reject_invalid_path_without_database_access ⟨none, none, none, none⟩
      ⟨⟨[⟨"foo", []⟩], []⟩⟩ [] ⟨"/view/foo bar", []⟩
      (not_wellFormed_of_noMatch _ (by decide))).1⟩,
   ⟨not_wellFormed_of_noMatch _ (by decide),
    (handlers_reject_invalid_path_without_database_access ⟨none, none, none, none⟩
      ⟨⟨[⟨"foo", []⟩], []⟩⟩ [] ⟨"/save/foo/bar", [("body", "x")]⟩
      (not_wellFormed_of_noMatch _ (by decide))).2.2⟩⟩

/-! ## Viewing a missing page -/

/-- C5: for every valid title `t` and every collection holding no document with
title `t`, `viewHandler` on `/view/t` answers with the single call
`Redirect "/edit/t" 302` (no template is executed), and the documents of the
collection are unchanged; the only driver call is the find. -/
theorem viewHandler_redirects_to_edit_when_absent
    (env : Env) (svc : Service) (w : ResponseWriter) (form : List (String × String)) (t : String)
    (ht : ValidTitle t) (habs : ∀ d ∈ svc.Pages.docs, d.title ≠ t) :
    viewHandler env svc w ⟨"/view/" ++ t, form⟩ =
      ({ Pages := { docs := svc.Pages.docs, calls := svc.Pages.calls ++ [DbCall.FindOne t] } },
        w ++ [HttpCall.Redirect ("/edit/" ++ t) 302]) := by
  have hg := getTitle_of_wellFormed w ⟨"/view/" ++ t, form⟩ t (wellFormed_view t ht)
  obtain ⟨e, hl⟩ := loadPage_error_of_absent env svc t (find_absent svc.Pages.docs t habs)
  have hs := loadPage_state env svc t
  unfold viewHandler
  rw [hg]
  simp only
  have hp : loadPage env svc t = ((loadPage env svc t).1, (loadPage env svc t).2) := rfl
  rw [hp, hl, hs]
  simp [http.Redirect, http.StatusFound]

/-- Witness for C5: `/view/NewPage` on a store holding only the page `Other`. -/
theorem viewHandler_redirects_to_edit_witness :
    ValidTitle "NewPage" ∧
    (∀ d ∈ [(⟨"Other", [1]⟩ : Doc)], d.title ≠ "NewPage") ∧
    viewHandler ⟨none, none, none, none⟩ ⟨⟨[⟨"Other", [1]⟩], []⟩⟩ [] ⟨"/view/" ++ "NewPage", []⟩ =
      (⟨⟨[⟨"Other", [1]⟩], [DbCall.FindOne "NewPage"]⟩⟩,
        [] ++ [HttpCall.Redirect ("/edit/" ++ "NewPage") 302]) :=
  ⟨by decide, by decide,
    viewHandler_redirects_to_edit_when_absent ⟨none, none, none, none⟩ ⟨⟨[⟨"Other", [1]⟩], []⟩⟩ []
      [] "NewPage" (by decide) (by decide)⟩

/-! ## Errors of `save` -/

/-- C6: `save` returns an error if and only if its insert step fails, and the
error returned is the error of the insert, issued on the collection the delete
step left behind.  The delete and the insert are both issued whatever the delete
answers, the error of the delete is never returned, and `save` returns success
when the delete failed and the insert did not. -/
theorem save_returns_exactly_the_insert_error (env : Env) (svc : Service) (p : Page) :
    ((p.save env svc).1.Pages, (p.save env svc).2) =
      (svc.Pages.DeleteMany env.deleteErr p.Title).1.InsertOne env.insertErr
        { title := p.Title, content := p.Content } ∧
    (p.save env svc).2 = env.insertErr ∧
    ((p.save env svc).2 ≠ none ↔ env.insertErr ≠ none) ∧
    (p.save env svc).1.Pages.calls =
      svc.Pages.calls ++ [DbCall.DeleteMany p.Title, DbCall.InsertOne p.Title p.Content] ∧
    (∀ e : GoError,
      (p.save { env with deleteErr := some e, insertErr := none } svc).2 = none ∧
      (svc.Pages.DeleteMany (some e) p.Title).2 = some e) := by
  refine ⟨rfl, save_err env svc p, by rw [save_err], save_calls env svc p, fun e => ⟨?_, rfl⟩⟩
  rw [save_err]

/-! ## The save handler -/

/-- C7: for every valid title `t` and every form, when `save` fails with error
`e` the save handler answers with the single call `Error e 500`, whose body
`e` followed by a newline is non-empty and starts with `e`, and issues no
redirect; the handler answers with `Redirect "/view/t" 302` if and only if
`save` returned no error. -/
theorem saveHandler_answers_500_exactly_when_save_fails
    (env : Env) (svc : Service) (w : ResponseWriter) (form : List (String × String)) (t : String)
    (ht : ValidTitle t) :
    (∀ e : GoError,
      (Page.save env svc ⟨t, bytes (Request.FormValue ⟨"/save/" ++ t, form⟩ "body")⟩).2 = some e →
        (saveHandler env svc w ⟨"/save/" ++ t, form⟩).2 = w ++ [HttpCall.Error e 500] ∧
        http.errorBody e ≠ "" ∧ e.data <+: (http.errorBody e).data ∧
        ∀ url code, HttpCall.Redirect url code ∈ (saveHandler env svc w ⟨"/save/" ++ t, form⟩).2 →
          HttpCall.Redirect url code ∈ w) ∧
    ((saveHandler env svc w ⟨"/save/" ++ t, form⟩).2 = w ++ [HttpCall.Redirect ("/view/" ++ t) 302] ↔
      (Page.save env svc ⟨t, bytes (Request.FormValue ⟨"/save/" ++ t, form⟩ "body")⟩).2 = none) := by
  have hg := getTitle_of_wellFormed w ⟨"/save/" ++ t, form⟩ t (wellFormed_save t ht)
  have hsplit : ∀ q : Page, q.save env svc = ((q.save env svc).1, (q.save env svc).2) :=
    fun _ => rfl
  constructor
  · intro e he
    have hres : (saveHandler env svc w ⟨"/save/" ++ t, form⟩).2 = w ++ [HttpCall.Error e 500] := by
      unfold saveHandler
      rw [hg]
      simp only
      rw [hsplit, he]
      simp [http.Error, http.StatusInternalServerError]
    refine ⟨hres, ?_, ?_, ?_⟩
    · intro h0
      have h1 := congrArg String.length h0
      simp only [http.errorBody, String.length_append] at h1
      have h2 : "\n".length = 1 := rfl
      have h3 : "".length = 0 := rfl
      omega
    · simp [http.errorBody, String.data_append]
    · intro url code hmem
      rw [hres] at hmem
      simpa using hmem
  · constructor
    · intro h
      cases he : (Page.save env svc ⟨t, bytes (Request.FormValue ⟨"/save/" ++ t, form⟩ "body")⟩).2 with
      | none => rfl
      | some e =>
        exfalso
        unfold saveHandler at h
        rw [hg] at h
        simp only at h
        rw [hsplit, he] at h
        simp [http.Error] at h
    · intro he
      unfold saveHandler
      rw [hg]
      simp only
      rw [hsplit, he]
      simp [http.Redirect, http.StatusFound]

/-- Witness for C7: saving `Test` while the database refuses the insert. -/
theorem saveHandler_answers_500_witness :
    ValidTitle "Test" ∧
    (saveHandler ⟨none, some "server selection error", none, none⟩ ⟨⟨[], []⟩⟩ []
      ⟨"/save/" ++ "Test", [("body", "hello world")]⟩).2 =
      [] ++ [HttpCall.Error "server selection error" 500] :=
  ⟨by decide,
    ((saveHandler_answers_500_exactly_when_save_fails ⟨none, some "server selection error", none, none⟩
      ⟨⟨[], []⟩⟩ [] [("body", "hello world")] "Test" (by decide)).1
        "server selection error" (by decide)).1⟩

/-! ## The edit handler -/

/-- C8: for every valid title `t`, when `loadPage t` fails (in particular when
no document is stored under `t`, and also when the find itself fails) `editHandler` on `/edit/t` executes the
template `edit.html` with the page of title `t` and empty content; when
`loadPage t` succeeds it executes `edit.html` with the loaded page.  In both
cases the only other call on the response is the `Error 500` of a failing
template execution, no redirect is issued, the documents of the collection are
unchanged and the only driver call is the find. -/
theorem editHandler_renders_blank_or_loaded_page
    (env : Env) (svc : Service) (w : ResponseWriter) (form : List (String × String)) (t : String)
    (ht : ValidTitle t) :
    ((∀ d ∈ svc.Pages.docs, d.title ≠ t) → ∃ e, (loadPage env svc t).2 = Except.error e) ∧
    (∀ e, (loadPage env svc t).2 = Except.error e →
      (editHandler env svc w ⟨"/edit/" ++ t, form⟩).2 =
        w ++ HttpCall.ExecuteTemplate "edit.html" { Title := t, Content := [] } ::
          (match env.templateErr with
            | some e' => [HttpCall.Error e' 500]
            | none => [])) ∧
    (∀ p, (loadPage env svc t).2 = Except.ok p →
      (editHandler env svc w ⟨"/edit/" ++ t, form⟩).2 =
        w ++ HttpCall.ExecuteTemplate "edit.html" p ::
          (match env.templateErr with
            | some e' => [HttpCall.Error e' 500]
            | none => [])) ∧
    (∀ url code, HttpCall.Redirect url code ∈ (editHandler env svc w ⟨"/edit/" ++ t, form⟩).2 →
      HttpCall.Redirect url code ∈ w) ∧
    (editHandler env svc w ⟨"/edit/" ++ t, form⟩).1 =
      { Pages := { docs := svc.Pages.docs, calls := svc.Pages.calls ++ [DbCall.FindOne t] } } := by
  have hg := getTitle_of_wellFormed w ⟨"/edit/" ++ t, form⟩ t (wellFormed_edit t ht)
  have hs := loadPage_state env svc t
  have hp : loadPage env svc t = ((loadPage env svc t).1, (loadPage env svc t).2) := rfl
  have hrender : ∀ q : Page, renderTemplate env w "edit" q =
      w ++ HttpCall.ExecuteTemplate "edit.html" q ::
        (match env.templateErr with
          | some e' => [HttpCall.Error e' 500]
          | none => []) := by
    intro q
    unfold renderTemplate ExecuteTemplate
    cases env.templateErr with
    | none => simp
    | some e' => simp [http.Error, http.StatusInternalServerError]
  have herr : ∀ e, (loadPage env svc t).2 = Except.error e →
      editHandler env svc w ⟨"/edit/" ++ t, form⟩ =
        ((loadPage env svc t).1, renderTemplate env w "edit" { Title := t, Content := [] }) := by
    intro e he
    unfold editHandler
    rw [hg]
    simp only
    rw [hp, he]
  have hok : ∀ q, (loadPage env svc t).2 = Except.ok q →
      editHandler env svc w ⟨"/edit/" ++ t, form⟩ =
        ((loadPage env svc t).1, renderTemplate env w "edit" q) := by
    intro q hq
    unfold editHandler
    rw [hg]
    simp only
    rw [hp, hq]
  refine ⟨?_, ?_, ?_, ?_, ?_⟩
  · intro habs
    exact loadPage_error_of_absent env svc t (find_absent svc.Pages.docs t habs)
  · intro e he
    rw [herr e he, hrender]
  · intro q hq
    rw [hok q hq, hrender]
  · intro url code hmem
    cases hl : (loadPage env svc t).2 with
    | error e =>
      rw [herr e hl, hrender] at hmem
      cases hte : env.templateErr <;> simpa [hte] using hmem
    | ok q =>
      rw [hok q hl, hrender] at hmem
      cases hte : env.templateErr <;> simpa [hte] using hmem
  · cases hl : (loadPage env svc t).2 with
    | error e => rw [herr e hl, hs]
    | ok q => rw [hok q hl, hs]

/-- Witness for C8: `/edit/NewPage` on a store without `NewPage`. -/
theorem editHandler_renders_blank_page_witness :
    ValidTitle "NewPage" ∧
    editHandler ⟨none, none, none, none⟩ ⟨⟨[⟨"Other", [1]⟩], []⟩⟩ [] ⟨"/edit/" ++ "NewPage", []⟩ =
      (⟨⟨[⟨"Other", [1]⟩], [DbCall.FindOne "NewPage"]⟩⟩,
        [HttpCall.ExecuteTemplate "edit.html" ⟨"NewPage", []⟩]) := by
  have h := editHandler_renders_blank_or_loaded_page ⟨none, none, none, none⟩
    ⟨⟨[⟨"Other", [1]⟩], []⟩⟩ [] [] "NewPage" (by decide)
  obtain ⟨e, he⟩ := h.1 (by decide)
  exact ⟨by decide, Prod.ext h.2.2.2.2 (h.2.1 e he)⟩

/-! ## Re-saving a loaded page -/

theorem find_filter_same (docs : List Doc) (t : String) :
    (docs.filter (fun d => !(d.title == t))).find? (fun d => d.title == t) = none := by
  rw [List.find?_eq_none]
  intro d hd
  have := (List.mem_filter.mp hd).2
  simpa using this

/-- C9, as amended: for every state of the page collection, every title `t`
and every outcome of the delete step, if `loadPage t` succeeds with page `p`,
`save p` returns no error and `loadPage t` is called again, then the second load
succeeds and returns `p` itself (the same Title and byte-identical Content)
whenever its find is answered without error; when its find fails it returns
that error, and in no case does it return a page other than `p`. -/
theorem reload_after_resave_returns_same_page (env1 env2 env3 : Env) (svc : Service)
    (t : String) (p : Page)
    (h1 : (loadPage env1 svc t).2 = Except.ok p)
    (h2 : (p.save env2 (loadPage env1 svc t).1).2 = none) :
    (env3.findErr = none →
      (loadPage env3 (p.save env2 (loadPage env1 svc t).1).1 t).2 = Except.ok p) ∧
    (∀ e, env3.findErr = some e →
      (loadPage env3 (p.save env2 (loadPage env1 svc t).1).1 t).2 = Except.error e) ∧
    (∀ q, (loadPage env3 (p.save env2 (loadPage env1 svc t).1).1 t).2 = Except.ok q → q = p) := by
  have hmain : env3.findErr = none →
      (loadPage env3 (p.save env2 (loadPage env1 svc t).1).1 t).2 = Except.ok p := by
    intro h3
    rw [loadPage_result] at h1
    rw [save_err] at h2
    rw [loadPage_result, save_docs, h2, loadPage_state, h3]
    simp only
    cases hf1 : env1.findErr with
    | some e => simp [hf1] at h1
    | none =>
      rw [hf1] at h1
      simp only at h1
      cases hf : svc.Pages.docs.find? (fun d => d.title == t) with
      | none => simp [hf] at h1
      | some d =>
        rw [hf] at h1
        simp only [Except.ok.injEq] at h1
        have hd : d.title = t := by simpa using List.find?_some hf
        have hpt : p.Title = t := by rw [← h1]; exact hd
        cases env2.deleteErr with
        | some e =>
          simp only [List.find?_append, hf, Option.or_some]
          rw [h1]
        | none =>
          simp only [List.find?_append, hpt, find_filter_same, Option.none_or]
          simp [List.find?_cons, hpt]
          rw [← hpt]
  have hfault : ∀ e, env3.findErr = some e →
      (loadPage env3 (p.save env2 (loadPage env1 svc t).1).1 t).2 = Except.error e := by
    intro e h3
    rw [loadPage_result, h3]
  refine ⟨hmain, hfault, ?_⟩
  intro q hq
  cases h3 : env3.findErr with
  | none =>
    rw [hmain h3] at hq
    exact (Except.ok.inj hq).symm
  | some e =>
    rw [hfault e h3] at hq
    cases hq

/-- Witness for C9: a collection holding two documents under the title `Test`,
re-saved while the delete is refused, then loaded again. -/
theorem reload_after_resave_witness :
    (loadPage ⟨none, none, none, none⟩ ⟨⟨[⟨"Test", [1]⟩, ⟨"Test", [2]⟩], []⟩⟩ "Test").2 =
      Except.ok ⟨"Test", [1]⟩ ∧
    (loadPage ⟨none, none, none, none⟩ (Page.save ⟨some "refused", none, none, none⟩
      (loadPage ⟨none, none, none, none⟩ ⟨⟨[⟨"Test", [1]⟩, ⟨"Test", [2]⟩], []⟩⟩ "Test").1
        ⟨"Test", [1]⟩).1 "Test").2 = Except.ok ⟨"Test", [1]⟩ :=
  ⟨rfl, (reload_after_resave_returns_same_page ⟨none, none, none, none⟩
    ⟨some "refused", none, none, none⟩ ⟨none, none, none, none⟩
    ⟨⟨[⟨"Test", [1]⟩, ⟨"Test", [2]⟩], []⟩⟩ "Test" ⟨"Test", [1]⟩ rfl rfl).1 rfl⟩

/-- C9 as stated fails: the page `Test` is loaded, re-saved without error and
loaded again while the find fails (the database has become unreachable); the
second load does not succeed, it returns the error of the find. -/
theorem reload_after_resave_fails_when_find_fails :
    (loadPage ⟨none, none, none, none⟩ ⟨⟨[⟨"Test", [1]⟩], []⟩⟩ "Test").2 =
      Except.ok ⟨"Test", [1]⟩ ∧
    (Page.save ⟨none, none, none, none⟩
      (loadPage ⟨none, none, none, none⟩ ⟨⟨[⟨"Test", [1]⟩], []⟩⟩ "Test").1
        ⟨"Test", [1]⟩).2 = none ∧
    (loadPage ⟨none, none, some "server selection error", none⟩
      (Page.save ⟨none, none, none, none⟩
        (loadPage ⟨none, none, none, none⟩ ⟨⟨[⟨"Test", [1]⟩], []⟩⟩ "Test").1
          ⟨"Test", [1]⟩).1 "Test").2 = Except.error "server selection error" ∧
    (loadPage ⟨none, none, some "server selection error", none⟩
      (Page.save ⟨none, none, none, none⟩
        (loadPage ⟨none, none, none, none⟩ ⟨⟨[⟨"Test", [1]⟩], []⟩⟩ "Test").1
          ⟨"Test", [1]⟩).1 "Test").2 ≠ Except.ok ⟨"Test", [1]⟩ :=
  ⟨rfl, rfl, rfl, fun h => by cases h⟩

/-! ## The frame of `save` -/

/-- C10: `save` touches only its own title.  For every page, every prior state
of the collection and every outcome of the delete and insert steps, the
documents whose title differs from the page's title are the same, in the same
order, before and after `save`, and for every other title `u` the result of
`loadPage u` (the same page, or the same failure) is the same after the save as
before it. -/
theorem save_touches_only_its_title (env envLoad : Env) (svc : Service) (p : Page) (u : String)
    (hu : u ≠ p.Title) :
    (p.save env svc).1.Pages.docs.filter (fun d => !(d.title == p.Title)) =
      svc.Pages.docs.filter (fun d => !(d.title == p.Title)) ∧
    (loadPage envLoad (p.save env svc).1 u).2 = (loadPage envLoad svc u).2 := by
  have hne : ¬ p.Title = u := fun e => hu e.symm
  constructor
  · rw [save_docs]
    cases env.deleteErr <;> cases env.insertErr <;> simp [List.filter_append, List.filter_filter]
  · rw [loadPage_result, loadPage_result, save_docs]
    cases envLoad.findErr with
    | some e => rfl
    | none =>
      simp only
      cases env.deleteErr <;> cases env.insertErr <;>
        simp only [List.find?_append, List.append_nil, find_filter_other _ _ _ hu] <;>
        cases svc.Pages.docs.find? (fun d => d.title == u) <;>
        simp [List.find?_cons, hne]

/-- Witness for C10: saving `A` while pages `B` and `A` are stored. -/
theorem save_touches_only_its_title_witness :
    "B" ≠ "A" ∧
    (Page.save ⟨none, none, none, none⟩ ⟨⟨[⟨"B", [1]⟩, ⟨"A", [2]⟩], []⟩⟩ ⟨"A", [3]⟩).1.Pages.docs =
      [⟨"B", [1]⟩, ⟨"A", [3]⟩] ∧
    (loadPage ⟨none, none, none, none⟩
      (Page.save ⟨none, none, none, none⟩ ⟨⟨[⟨"B", [1]⟩, ⟨"A", [2]⟩], []⟩⟩ ⟨"A", [3]⟩).1 "B").2 =
      (loadPage ⟨none, none, none, none⟩ ⟨⟨[⟨"B", [1]⟩, ⟨"A", [2]⟩], []⟩⟩ "B").2 :=
  ⟨by decide, by decide,
    (save_touches_only_its_title ⟨none, none, none, none⟩ ⟨none, none, none, none⟩
      ⟨⟨[⟨"B", [1]⟩, ⟨"A", [2]⟩], []⟩⟩ ⟨"A", [3]⟩ "B" (by decide)).2⟩

/-! ## Replacement of a page by `save` -/

/-- C3, evaluated where it fails: two sequential saves of `Test` with contents
`v1` then `v2` on an empty collection, the delete of the second save refused.
Both saves return no error, the collection then holds two documents titled
`Test`, and `loadPage` returns the stale content `v1`. -/
theorem save_leaves_stale_record_when_delete_fails :
    (Page.save ⟨none, none, none, none⟩ ⟨⟨[], []⟩⟩ ⟨"Test", bytes "v1"⟩).2 = none ∧
    (Page.save ⟨some "connection reset by peer", none, none, none⟩
      (Page.save ⟨none, none, none, none⟩ ⟨⟨[], []⟩⟩ ⟨"Test", bytes "v1"⟩).1
      ⟨"Test", bytes "v2"⟩).2 = none ∧
    (Page.save ⟨some "connection reset by peer", none, none, none⟩
      (Page.save ⟨none, none, none, none⟩ ⟨⟨[], []⟩⟩ ⟨"Test", bytes "v1"⟩).1
      ⟨"Test", bytes "v2"⟩).1.Pages.docs = [⟨"Test", bytes "v1"⟩, ⟨"Test", bytes "v2"⟩] ∧
    (loadPage ⟨none, none, none, none⟩
      (Page.save ⟨some "connection reset by peer", none, none, none⟩
        (Page.save ⟨none, none, none, none⟩ ⟨⟨[], []⟩⟩ ⟨"Test", bytes "v1"⟩).1
        ⟨"Test", bytes "v2"⟩).1 "Test").2 = Except.ok ⟨"Test", bytes "v1"⟩ ∧
    bytes "v1" ≠ bytes "v2" :=
  ⟨by decide, by decide, by decide, rfl, by decide⟩

/-- C4, evaluated where it fails: the collection holds `Test` with content
`old`, `/save/Test` with body `hello world` is handled while the delete is
refused and ends in the redirect to `/view/Test`; the following `/view/Test`
executes `view.html` with the stale content `old`. -/
theorem save_then_view_shows_stale_body_when_delete_fails :
    (saveHandler ⟨some "connection reset by peer", none, none, none⟩
      ⟨⟨[⟨"Test", bytes "old"⟩], []⟩⟩ [] ⟨"/save/Test", [("body", "hello world")]⟩).2 =
      [HttpCall.Redirect "/view/Test" 302] ∧
    (viewHandler ⟨none, none, none, none⟩
      (saveHandler ⟨some "connection reset by peer", none, none, none⟩
        ⟨⟨[⟨"Test", bytes "old"⟩], []⟩⟩ [] ⟨"/save/Test", [("body", "hello world")]⟩).1
      [] ⟨"/view/Test", []⟩).2 =
      [HttpCall.ExecuteTemplate "view.html" ⟨"Test", bytes "old"⟩] ∧
    bytes "old" ≠ bytes "hello world" :=
  ⟨by decide, by decide, by decide⟩

theorem find_append_new (docs : List Doc) (t : String) (c : List UInt8)
    (h : docs.find? (fun d => d.title == t) = none) :
    (docs ++ [(⟨t, c⟩ : Doc)]).find? (fun d => d.title == t) =
      some { title := t, content := c } := by
  simp [List.find?_append, h, List.find?_cons]

theorem save_then_load_of_delete (env envLoad : Env) (svc : Service) (p : Page)
    (hd : env.deleteErr = none ∨ ∀ d ∈ svc.Pages.docs, d.title ≠ p.Title)
    (hs : (p.save env svc).2 = none) (hf : envLoad.findErr = none) :
    (p.save env svc).1.Pages.docs.filter (fun d => d.title == p.Title) =
      [{ title := p.Title, content := p.Content }] ∧
    (loadPage envLoad (p.save env svc).1 p.Title).2 = Except.ok p := by
  rw [save_err] at hs
  rw [loadPage_result, save_docs, hs, hf]
  simp only
  have key : ∀ docs : List Doc, (∀ d ∈ docs, d.title ≠ p.Title) →
      (docs ++ [(⟨p.Title, p.Content⟩ : Doc)]).filter (fun d => d.title == p.Title) =
        [{ title := p.Title, content := p.Content }] ∧
      (match (docs ++ [(⟨p.Title, p.Content⟩ : Doc)]).find?
          (fun d => d.title == p.Title) with
        | some d => Except.ok { Title := d.title, Content := d.content }
        | none => Except.error Collection.ErrNoDocuments) = Except.ok p := by
    intro docs hdocs
    constructor
    · rw [List.filter_append]
      have : docs.filter (fun d => d.title == p.Title) = [] := by
        rw [List.filter_eq_nil_iff]
        intro d hd'
        simpa using hdocs d hd'
      rw [this]
      simp [List.filter_cons]
    · rw [find_append_new docs p.Title p.Content (find_absent docs p.Title hdocs)]
  have hfilter : ∀ d ∈ svc.Pages.docs.filter (fun d => !(d.title == p.Title)),
      d.title ≠ p.Title := by
    intro d hd'
    simpa using (List.mem_filter.mp hd').2
  rcases hd with hd | hd
  · rw [hd]
    exact key _ hfilter
  · cases env.deleteErr with
    | none => exact key _ hfilter
    | some e => exact key _ hd

/-- When the delete step is carried out, or no document was stored under the
title before, a `save` that returns no error leaves exactly one document with
the page's title, holding the page's content, and a `loadPage` whose find is
answered without error returns the page. -/
theorem save_replaces_page_when_delete_carried_out (env envLoad : Env) (svc : Service) (p : Page)
    (hd : env.deleteErr = none ∨ ∀ d ∈ svc.Pages.docs, d.title ≠ p.Title)
    (hs : (p.save env svc).2 = none) (hf : envLoad.findErr = none) :
    (p.save env svc).1.Pages.docs.filter (fun d => d.title == p.Title) =
      [{ title := p.Title, content := p.Content }] ∧
    (loadPage envLoad (p.save env svc).1 p.Title).2 = Except.ok p :=
  save_then_load_of_delete env envLoad svc p hd hs hf

/-- Two saves of `Test`, both carried out: only `v2` remains. -/
theorem save_replaces_page_witness :
    (Page.save ⟨none, none, none, none⟩
      (Page.save ⟨none, none, none, none⟩ ⟨⟨[], []⟩⟩ ⟨"Test", bytes "v1"⟩).1
      ⟨"Test", bytes "v2"⟩).1.Pages.docs.filter (fun d => d.title == "Test") =
      [⟨"Test", bytes "v2"⟩] ∧
    (loadPage ⟨none, none, none, none⟩ (Page.save ⟨none, none, none, none⟩
      (Page.save ⟨none, none, none, none⟩ ⟨⟨[], []⟩⟩ ⟨"Test", bytes "v1"⟩).1
      ⟨"Test", bytes "v2"⟩).1 "Test").2 = Except.ok ⟨"Test", bytes "v2"⟩ :=
  save_replaces_page_when_delete_carried_out ⟨none, none, none, none⟩ ⟨none, none, none, none⟩
    (Page.save ⟨none, none, none, none⟩ ⟨⟨[], []⟩⟩ ⟨"Test", bytes "v1"⟩).1 ⟨"Test", bytes "v2"⟩
    (Or.inl rfl) rfl rfl

/-! ## Save followed by view -/

theorem saveHandler_valid (env : Env) (svc : Service) (w : ResponseWriter)
    (form : List (String × String)) (t : String) (ht : ValidTitle t) :
    saveHandler env svc w ⟨"/save/" ++ t, form⟩ =
      ((Page.save env svc ⟨t, bytes (Request.FormValue ⟨"/save/" ++ t, form⟩ "body")⟩).1,
        match (Page.save env svc ⟨t, bytes (Request.FormValue ⟨"/save/" ++ t, form⟩ "body")⟩).2 with
        | some e => w ++ [HttpCall.Error e 500]
        | none => w ++ [HttpCall.Redirect ("/view/" ++ t) 302]) := by
  have hg := getTitle_of_wellFormed w ⟨"/save/" ++ t, form⟩ t (wellFormed_save t ht)
  unfold saveHandler
  rw [hg]
  simp only
  generalize Page.save env svc ⟨t, bytes (Request.FormValue ⟨"/save/" ++ t, form⟩ "body")⟩ = res
  obtain ⟨svc1, err⟩ := res
  cases err <;> rfl

theorem viewHandler_valid (env : Env) (svc : Service) (w : ResponseWriter)
    (form : List (String × String)) (t : String) (ht : ValidTitle t) :
    viewHandler env svc w ⟨"/view/" ++ t, form⟩ =
      ((loadPage env svc t).1,
        match (loadPage env svc t).2 with
        | Except.error _ => w ++ [HttpCall.Redirect ("/edit/" ++ t) 302]
        | Except.ok p =>
          w ++ HttpCall.ExecuteTemplate "view.html" p ::
            (match env.templateErr with
              | some e => [HttpCall.Error e 500]
              | none => [])) := by
  have hg := getTitle_of_wellFormed w ⟨"/view/" ++ t, form⟩ t (wellFormed_view t ht)
  unfold viewHandler
  rw [hg]
  simp only
  generalize loadPage env svc t = res
  obtain ⟨svc1, r⟩ := res
  cases r with
  | error e => rfl
  | ok q =>
    simp only [renderTemplate, ExecuteTemplate]
    cases env.templateErr with
    | none => simp
    | some e => simp [http.Error, http.StatusInternalServerError]

/-- Save followed by view round-trips the body when the delete step of the save
is carried out or no document was stored under the title before: if
`saveHandler` on `/save/t` ends in the redirect to `/view/t`, a following
`viewHandler` on `/view/t` whose find is answered without error executes
`view.html` with the page of title `t` whose content is the bytes of the
submitted body, and does not redirect. -/
theorem save_then_view_round_trips_body
    (env1 env2 : Env) (svc : Service) (w1 w2 : ResponseWriter)
    (form1 form2 : List (String × String)) (t : String) (ht : ValidTitle t)
    (hd : env1.deleteErr = none ∨ ∀ d ∈ svc.Pages.docs, d.title ≠ t)
    (hredir : (saveHandler env1 svc w1 ⟨"/save/" ++ t, form1⟩).2 =
      w1 ++ [HttpCall.Redirect ("/view/" ++ t) 302])
    (hf : env2.findErr = none) :
    (viewHandler env2 (saveHandler env1 svc w1 ⟨"/save/" ++ t, form1⟩).1 w2
        ⟨"/view/" ++ t, form2⟩).2 =
      w2 ++ HttpCall.ExecuteTemplate "view.html"
          ⟨t, bytes (Request.FormValue ⟨"/save/" ++ t, form1⟩ "body")⟩ ::
        (match env2.templateErr with
          | some e => [HttpCall.Error e 500]
          | none => []) := by
  rw [saveHandler_valid env1 svc w1 form1 t ht] at hredir ⊢
  simp only at hredir ⊢
  have hs : (Page.save env1 svc ⟨t, bytes (Request.FormValue ⟨"/save/" ++ t, form1⟩ "body")⟩).2 =
      none := by
    cases he : (Page.save env1 svc
        ⟨t, bytes (Request.FormValue ⟨"/save/" ++ t, form1⟩ "body")⟩).2 with
    | none => rfl
    | some e =>
      rw [he] at hredir
      simp at hredir
  have hl := (save_then_load_of_delete env1 env2 svc
    ⟨t, bytes (Request.FormValue ⟨"/save/" ++ t, form1⟩ "body")⟩ hd hs hf).2
  rw [viewHandler_valid env2 _ w2 form2 t ht]
  simp only at hl ⊢
  rw [hl]

/-- The round trip for title `Test` and body `hello world` on an empty store. -/
theorem save_then_view_round_trip_witness :
    (viewHandler ⟨none, none, none, none⟩
      (saveHandler ⟨none, none, none, none⟩ ⟨⟨[], []⟩⟩ []
        ⟨"/save/" ++ "Test", [("body", "hello world")]⟩).1 []
      ⟨"/view/" ++ "Test", []⟩).2 =
      [] ++ [HttpCall.ExecuteTemplate "view.html"
        ⟨"Test", bytes (Request.FormValue ⟨"/save/" ++ "Test", [("body", "hello world")]⟩ "body")⟩] :=
  save_then_view_round_trips_body ⟨none, none, none, none⟩ ⟨none, none, none, none⟩ ⟨⟨[], []⟩⟩ [] []
    [("body", "hello world")] [] "Test" (by decide) (Or.inl rfl) (by decide) rfl

/-! ## Concrete requests -/

/-- The paths the routing contract rejects: an empty title, a title with a
space, an extra path segment, a trailing newline, an unknown route and leading
text in front of the route. -/
theorem getTitle_rejects_malformed_paths :
    getTitle [] ⟨"/view/", []⟩ =
      ([HttpCall.Error "404 page not found" 404], "", some "invalid Page Title") ∧
    getTitle [] ⟨"/view/foo bar", []⟩ =
      ([HttpCall.Error "404 page not found" 404], "", some "invalid Page Title") ∧
    getTitle [] ⟨"/view/foo/bar", []⟩ =
      ([HttpCall.Error "404 page not found" 404], "", some "invalid Page Title") ∧
    getTitle [] ⟨"/view/foo\n", []⟩ =
      ([HttpCall.Error "404 page not found" 404], "", some "invalid Page Title") ∧
    getTitle [] ⟨"/show/foo", []⟩ =
      ([HttpCall.Error "404 page not found" 404], "", some "invalid Page Title") ∧
    getTitle [] ⟨"/wiki/view/foo", []⟩ =
      ([HttpCall.Error "404 page not found" 404], "", some "invalid Page Title") ∧
    getTitle [] ⟨"/edit/Page42", []⟩ = ([], "Page42", none) := by
  decide

/-- A save request without a `body` field stores the page with empty content
and ends in the redirect. -/
theorem saveHandler_stores_empty_content_without_body :
    saveHandler ⟨none, none, none, none⟩ ⟨⟨[], []⟩⟩ [] ⟨"/save/Test", []⟩ =
      (⟨⟨[⟨"Test", []⟩], [DbCall.DeleteMany "Test", DbCall.InsertOne "Test" []]⟩⟩,
        [HttpCall.Redirect "/view/Test" 302]) := by
  decide
